import Mathlib

/-!
Verification development for the ADGM corporate-agent pipeline.

The definitions below are a shallow embedding of the Python sources
(`document_analyzer.py`, `checklist_verifier.py`, `document_processor.py`,
`rag_engine.py`, `utils/document_types.py`).  Pure string-processing code is
translated into executable Lean functions; JSON parsing (`json.loads`) is
modelled by an explicit recursive-descent parser over a `JVal` value type;
Python dicts holding extracted compliance issues are modelled as
insertion-ordered association lists `List (String × JVal)`.  External
dependencies (the RAG language-model call) appear as explicit parameters:
a theorem quantifying over the response string covers every possible
behaviour of the external component.
-/

namespace ADGM

/-! ### Python-style character and string helpers -/

/-- The character `{`. -/
def lbrace : Char := Char.ofNat 123

/-- The character `}`. -/
def rbrace : Char := Char.ofNat 125

/-- Python regex `\s` / `str.strip` whitespace (space, tab, newline,
carriage return, vertical tab, form feed). -/
def isPySpace (c : Char) : Bool :=
  c == ' ' || c == '\t' || c == '\n' || c == '\r' ||
  c == Char.ofNat 11 || c == Char.ofNat 12

/-- JSON whitespace accepted by `json.loads` between tokens. -/
def isJsonSpace (c : Char) : Bool :=
  c == ' ' || c == '\t' || c == '\n' || c == '\r'

/-- `str.strip()` on a character list. -/
def pyStripList (cs : List Char) : List Char :=
  ((cs.dropWhile isPySpace).reverse.dropWhile isPySpace).reverse

/-- Python `str.strip()`. -/
def pyStrip (s : String) : String := ⟨pyStripList s.data⟩

/-- Python `str.lower()` (ASCII-faithful). -/
def pyLower (s : String) : String := ⟨s.data.map Char.toLower⟩

/-- `needle` occurs at the head of the second list. -/
def prefixAt : List Char → List Char → Bool
  | [], _ => true
  | _ :: _, [] => false
  | a :: as, b :: bs => a == b && prefixAt as bs

/-- Case-insensitive head match: `needle` (already lowercase) matches the
lowered head of the second list. -/
def prefixAtCI : List Char → List Char → Bool
  | [], _ => true
  | _ :: _, [] => false
  | a :: as, b :: bs => a == b.toLower && prefixAtCI as bs

/-- Substring occurrence on character lists (Python `needle in hay`). -/
def containsList (needle : List Char) : List Char → Bool
  | [] => needle.isEmpty
  | c :: t => prefixAt needle (c :: t) || containsList needle t

/-- Python `needle in hay` on strings. -/
def pyIn (needle hay : String) : Bool := containsList needle.data hay.data

/-- A character is cased (has an upper/lower distinction); ASCII-faithful. -/
def isCased (c : Char) : Bool := c.isUpper || c.isLower

/-- Python `str.isupper()`: at least one cased character and no lowercase
cased character. -/
def pyIsUpper (cs : List Char) : Bool :=
  cs.any isCased && cs.all (fun c => !c.isLower)

/-! ### JSON values and a model of `json.loads`

`document_analyzer._extract_issues_from_rag` feeds each brace-delimited
regex match to `json.loads` and keeps those that parse as records carrying
`"section"` and `"issue"` keys.  `JVal` models the Python JSON value
universe; objects are insertion-ordered association lists with last-wins
duplicate keys, as produced by `json.loads`. -/

inductive JVal where
  | str : String → JVal
  | num : String → JVal
  | bool : Bool → JVal
  | null : JVal
  | arr : List JVal → JVal
  | obj : List (String × JVal) → JVal

/-- A compliance issue: the Python dict, as an insertion-ordered record. -/
abbrev Issue := List (String × JVal)

/-- Key lookup in a JSON object / issue dict (`d.get(k)`). -/
def lookupKey (k : String) : List (String × JVal) → Option JVal
  | [] => none
  | kv :: t => if kv.1 = k then some kv.2 else lookupKey k t

/-- Key presence (`k in d`). -/
def hasKey (k : String) (l : List (String × JVal)) : Bool :=
  (lookupKey k l).isSome

/-- Insert a key into an object, replacing in place on duplicate
(CPython dict insertion semantics used by `json.loads`). -/
def objInsert (k : String) (v : JVal) : List (String × JVal) → List (String × JVal)
  | [] => [(k, v)]
  | kv :: t => if kv.1 = k then (kv.1, v) :: t else kv :: objInsert k v t

/-- Value of one hexadecimal digit (codepoint arithmetic). -/
def hexDigit (c : Char) : Option Nat :=
  let n := c.toNat
  if 48 ≤ n && n ≤ 57 then some (n - 48)
  else if 97 ≤ n && n ≤ 102 then some (n - 87)
  else if 65 ≤ n && n ≤ 70 then some (n - 55)
  else none

/-- JSON string escape characters, keyed by code point: quote, backslash,
slash, and the b f n r t control escapes. -/
def escChar (c : Char) : Option Char :=
  match c.toNat with
  | 34 => some (Char.ofNat 34)
  | 92 => some (Char.ofNat 92)
  | 47 => some (Char.ofNat 47)
  | 98 => some (Char.ofNat 8)
  | 102 => some (Char.ofNat 12)
  | 110 => some (Char.ofNat 10)
  | 114 => some (Char.ofNat 13)
  | 116 => some (Char.ofNat 9)
  | _ => none

/-- Body of a JSON string literal, after the opening quote.  Strict mode:
raw control characters are rejected, as in `json.loads`. -/
def parseStrAux : Nat → List Char → List Char → Option (String × List Char)
  | 0, _, _ => none
  | fuel + 1, acc, cs =>
    match cs with
    | [] => none
    | c :: t =>
      if c == '"' then some (⟨acc.reverse⟩, t)
      else if c == '\\' then
        match t with
        | 'u' :: h1 :: h2 :: h3 :: h4 :: t2 =>
          match [h1, h2, h3, h4].mapM hexDigit with
          | some ds =>
            parseStrAux fuel
              (Char.ofNat (ds.foldl (fun acc2 v => 16 * acc2 + v) 0) :: acc) t2
          | none => none
        | e :: t2 =>
          match escChar e with
          | some ch => parseStrAux fuel (ch :: acc) t2
          | none => none
        | [] => none
      else if c.toNat < 32 then none
      else parseStrAux fuel (c :: acc) t

/-- One-or-more decimal digits at the head. -/
def digits1 (cs : List Char) : Option (List Char × List Char) :=
  let ds := cs.takeWhile Char.isDigit
  if ds.isEmpty then none else some (ds, cs.dropWhile Char.isDigit)

/-- JSON number literal at the head of the input; returns the lexeme. -/
def parseNumber (cs : List Char) : Option (String × List Char) :=
  let (sign, cs1) :=
    match cs with
    | '-' :: t => ([('-' : Char)], t)
    | _ => ([], cs)
  match cs1 with
  | '0' :: t =>
    let intPart := [('0' : Char)]
    (parseNumTail (sign ++ intPart) t)
  | c :: _ =>
    if c.isDigit then
      match digits1 cs1 with
      | some (ds, t) => parseNumTail (sign ++ ds) t
      | none => none
    else none
  | [] => none
where
  /-- Optional fraction and exponent after the integer part. -/
  parseNumTail (pre : List Char) (cs : List Char) : Option (String × List Char) :=
    let (frac, cs2) :=
      match cs with
      | '.' :: t =>
        match digits1 t with
        | some (ds, t2) => (some ('.' :: ds), t2)
        | none => (none, cs)
      | _ => (none, cs)
    match frac with
    | none =>
      match cs with
      | '.' :: _ => none
      | _ => parseExp pre cs
    | some f => parseExp (pre ++ f) cs2
  /-- Optional exponent. -/
  parseExp (pre : List Char) (cs : List Char) : Option (String × List Char) :=
    match cs with
    | c :: t =>
      if c == 'e' || c == 'E' then
        let (sg, t2) :=
          match t with
          | '+' :: u => ([('+' : Char)], u)
          | '-' :: u => ([('-' : Char)], u)
          | _ => ([], t)
        match digits1 t2 with
        | some (ds, t3) => some (⟨pre ++ c :: sg ++ ds⟩, t3)
        | none => none
      else some (⟨pre⟩, cs)
    | [] => some (⟨pre⟩, [])

mutual

/-- A JSON value after optional leading whitespace (the recursive core of
`json.loads`); also accepts the CPython extensions `NaN`, `Infinity`,
`-Infinity`. -/
def parseVal : Nat → List Char → Option (JVal × List Char)
  | 0, _ => none
  | fuel + 1, cs0 =>
    let cs := cs0.dropWhile isJsonSpace
    match cs with
    | [] => none
    | c :: t =>
      if c == '"' then
        match parseStrAux (t.length + 1) [] t with
        | some (s, rest) => some (JVal.str s, rest)
        | none => none
      else if c == lbrace then
        let t1 := t.dropWhile isJsonSpace
        match t1 with
        | d :: t2 => if d == rbrace then some (JVal.obj [], t2) else parseMembers fuel [] t1
        | [] => none
      else if c == '[' then
        let t1 := t.dropWhile isJsonSpace
        match t1 with
        | d :: t2 => if d == ']' then some (JVal.arr [], t2) else parseItems fuel [] t1
        | [] => none
      else if c == 't' then
        match t with
        | 'r' :: 'u' :: 'e' :: r => some (JVal.bool true, r)
        | _ => none
      else if c == 'f' then
        match t with
        | 'a' :: 'l' :: 's' :: 'e' :: r => some (JVal.bool false, r)
        | _ => none
      else if c == 'n' then
        match t with
        | 'u' :: 'l' :: 'l' :: r => some (JVal.null, r)
        | _ => none
      else if c == 'N' then
        match t with
        | 'a' :: 'N' :: r => some (JVal.num "NaN", r)
        | _ => none
      else if c == 'I' then
        match t with
        | 'n' :: 'f' :: 'i' :: 'n' :: 'i' :: 't' :: 'y' :: r => some (JVal.num "Infinity", r)
        | _ => none
      else if c == '-' then
        match t with
        | 'I' :: 'n' :: 'f' :: 'i' :: 'n' :: 'i' :: 't' :: 'y' :: r =>
          some (JVal.num "-Infinity", r)
        | _ =>
          match parseNumber cs with
          | some (lx, r) => some (JVal.num lx, r)
          | none => none
      else
        match parseNumber cs with
        | some (lx, r) => some (JVal.num lx, r)
        | none => none

/-- Object members, positioned at the start of a key. -/
def parseMembers : Nat → List (String × JVal) → List Char → Option (JVal × List Char)
  | 0, _, _ => none
  | fuel + 1, acc, cs =>
    match cs with
    | '"' :: t =>
      match parseStrAux (t.length + 1) [] t with
      | some (k, rest) =>
        match rest.dropWhile isJsonSpace with
        | ':' :: rest1 =>
          match parseVal fuel rest1 with
          | some (v, rest2) =>
            match rest2.dropWhile isJsonSpace with
            | ',' :: r3 =>
              parseMembers fuel (objInsert k v acc) (r3.dropWhile isJsonSpace)
            | d :: r3 =>
              if d == rbrace then some (JVal.obj (objInsert k v acc), r3) else none
            | [] => none
          | none => none
        | _ => none
      | none => none
    | _ => none

/-- Array items, positioned at the start of a value. -/
def parseItems : Nat → List JVal → List Char → Option (JVal × List Char)
  | 0, _, _ => none
  | fuel + 1, acc, cs =>
    match parseVal fuel cs with
    | some (v, rest) =>
      match rest.dropWhile isJsonSpace with
      | ',' :: r => parseItems fuel (acc ++ [v]) r
      | ']' :: r => some (JVal.arr (acc ++ [v]), r)
      | _ => none
    | none => none

end

/-- Model of `json.loads`: parse one value, allow trailing whitespace only,
return `none` on any error (the `JSONDecodeError` path). -/
def pyJsonLoads (s : String) : Option JVal :=
  match parseVal (s.data.length + 8) s.data with
  | some (v, rest) => if (rest.dropWhile isJsonSpace).isEmpty then some v else none
  | none => none

/-! ### Compliance scorer (`checklist_verifier._calculate_compliance_percentage`)

Floats in the Python code only ever hold exact small integers here
(100.0 minus integer deductions), so the score is modelled in `Int`. -/

/-- Does the issue's `severity` value equal the string `sev`
(`issue.get("severity") == sev`)?  A missing key or a non-string value
compares unequal, as in Python. -/
def jvalIsStr (v : JVal) (s : String) : Bool :=
  match v with
  | JVal.str t => t == s
  | _ => false

/-- Boolean test `issue.get("severity") == sev`. -/
def sevIs (sev : String) (iss : Issue) : Bool :=
  match lookupKey "severity" iss with
  | some v => jvalIsStr v sev
  | none => false

/-- `sum(1 for issue in issues_found if issue.get("severity") == sev)`. -/
def countSeverity (sev : String) (issues_found : List Issue) : Nat :=
  (issues_found.filter (sevIs sev)).length

/-- The score before the final clamp, following the deduction sequence of
`_calculate_compliance_percentage`. -/
def rawCompliance (missing_docs : List String) (issues_found : List Issue) : Int :=
  let compliance : Int := 100
  let compliance :=
    if missing_docs.isEmpty then compliance
    else compliance - 15 * (missing_docs.length : Int)
  let compliance := compliance - 5 * (countSeverity "High" issues_found : Int)
  let compliance := compliance - 2 * (countSeverity "Medium" issues_found : Int)
  let compliance := compliance - 1 * (countSeverity "Low" issues_found : Int)
  compliance

/-- `ChecklistVerifier._calculate_compliance_percentage`. The
`document_types` argument is received but never read by the Python body. -/
def calculate_compliance_percentage (document_types : List String)
    (missing_docs : List String) (issues_found : List Issue) : Int :=
  max 0 (min 100 (rawCompliance missing_docs issues_found))

/-! ### Strategy 1: structured-block extraction
(`document_analyzer._extract_issues_from_rag`, JSON phase)

`re.findall(r"\{[\s\S]*?\}", text)`: repeatedly find the next `{`, extend
non-greedily to the first following `}`, emit the block (braces included),
and resume scanning after it. -/

/-- Split at the first `}`: returns the characters before it and the
characters after it, or `none` when there is no `}`. -/
def splitAtClose (cs : List Char) : Option (List Char × List Char) :=
  match cs.dropWhile (fun c => !(c == rbrace)) with
  | [] => none
  | _ :: r => some (cs.takeWhile (fun c => !(c == rbrace)), r)

/-- Fueled scan for all non-greedy brace-delimited blocks. -/
def jsonScan : Nat → List Char → List (List Char)
  | 0, _ => []
  | _, [] => []
  | fuel + 1, c :: t =>
    if c == lbrace then
      match splitAtClose t with
      | some (inner, rest) => (lbrace :: (inner ++ [rbrace])) :: jsonScan fuel rest
      | none => []
    else jsonScan fuel t

/-- All brace-delimited blocks of the response, in order. -/
def jsonMatches (s : String) : List String :=
  (jsonScan (s.data.length + 1) s.data).map (fun cs => (⟨cs⟩ : String))

/-- Accept a block if it parses as a JSON object carrying `"section"` and
`"issue"` keys; a missing `"severity"` defaults to `"Medium"` (appended at
the end, as CPython dict insertion does). -/
def acceptBlock (b : String) : Option Issue :=
  match pyJsonLoads b with
  | some (JVal.obj fields) =>
    if hasKey "section" fields && hasKey "issue" fields then
      some (if hasKey "severity" fields then fields
            else fields ++ [("severity", JVal.str "Medium")])
    else none
  | _ => none

/-- The structured-block strategy: issues derived from accepted blocks. -/
def jsonStrategy (rag_response : String) : List Issue :=
  (jsonMatches rag_response).filterMap acceptBlock

/-! ### Strategy 2: labeled-line extraction

The patterns are of the shape `(?:M1|M2|...):\s*([^\n]+)` matched
case-insensitively (`re.findall` for issue markers, `re.search` for the
attached section / severity / suggestion / regulation values). -/

/-- Try to match one of the (lowercase) markers followed by `:` at the head
of the input; returns the characters after the colon. -/
def matchMarkersAt (markers : List String) (cs : List Char) : Option (List Char) :=
  match markers with
  | [] => none
  | m :: rest =>
    if prefixAtCI m.data cs then
      match cs.drop (m.data.length) with
      | ':' :: t => some t
      | _ => matchMarkersAt rest cs
    else matchMarkersAt rest cs

/-- The `\s*([^\n]+)` tail after the colon, with Python backtracking
semantics: the greedy whitespace skip backs off just enough for the capture
to start at a non-newline character.  Returns the capture and the input
remaining after the whole match, or `none` when the tail cannot match. -/
def captureTail (cs : List Char) : Option (List Char × List Char) :=
  let rest := cs.dropWhile isPySpace
  match rest with
  | _ :: _ =>
    some (rest.takeWhile (fun c => !(c == '\n')), rest.dropWhile (fun c => !(c == '\n')))
  | [] =>
    let ws := cs.takeWhile isPySpace
    match ws.reverse.dropWhile (fun c => c == '\n') with
    | [] => none
    | c :: _ => some ([c], (ws.reverse.takeWhile (fun c => c == '\n')).reverse)

/-- `re.search`: first `(?:markers):\s*([^\n]+)` capture in the text. -/
def scanFirst (markers : List String) : Nat → List Char → Option String
  | 0, _ => none
  | _, [] => none
  | fuel + 1, c :: t =>
    match matchMarkersAt markers (c :: t) with
    | some afterColon =>
      match captureTail afterColon with
      | some (cap, _) => some ⟨cap⟩
      | none => scanFirst markers fuel t
    | none => scanFirst markers fuel t

/-- `re.findall`: every `(?:markers):\s*([^\n]+)` capture, scanning
resuming after each match. -/
def scanAll (markers : List String) : Nat → List Char → List String
  | 0, _ => []
  | _, [] => []
  | fuel + 1, c :: t =>
    match matchMarkersAt markers (c :: t) with
    | some afterColon =>
      match captureTail afterColon with
      | some (cap, rest) => (⟨cap⟩ : String) :: scanAll markers fuel rest
      | none => scanAll markers fuel t
    | none => scanAll markers fuel t

/-- The `(High|Medium|Low)` capture after `(?:Severity|Priority):\s*`,
preserving the original casing of the matched slice. -/
def severityAt (cs : List Char) : Option String :=
  let rest := cs.dropWhile isPySpace
  if prefixAtCI "high".data rest then some ⟨rest.take 4⟩
  else if prefixAtCI "medium".data rest then some ⟨rest.take 6⟩
  else if prefixAtCI "low".data rest then some ⟨rest.take 3⟩
  else none

/-- `re.search` for the severity pattern. -/
def scanSeverity : Nat → List Char → Option String
  | 0, _ => none
  | _, [] => none
  | fuel + 1, c :: t =>
    match matchMarkersAt ["severity", "priority"] (c :: t) with
    | some afterColon =>
      match severityAt afterColon with
      | some cap => some cap
      | none => scanSeverity fuel t
    | none => scanSeverity fuel t

/-- Issue-marker captures of the response
(`re.findall(r"(?:Issue|Problem|Missing|Incorrect):\s*([^\n]+)", ...)`). -/
def issueCaptures (rag_response : String) : List String :=
  scanAll ["issue", "problem", "missing", "incorrect"]
    (rag_response.data.length + 1) rag_response.data

/-- First section capture (`(?:Section|Part|Clause):`). -/
def firstSectionCapture (rag_response : String) : Option String :=
  scanFirst ["section", "part", "clause"] (rag_response.data.length + 1) rag_response.data

/-- First severity capture (`(?:Severity|Priority):`). -/
def firstSeverityCapture (rag_response : String) : Option String :=
  scanSeverity (rag_response.data.length + 1) rag_response.data

/-- First suggestion capture (`(?:Suggestion|Recommendation|Fix):`). -/
def firstSuggestionCapture (rag_response : String) : Option String :=
  scanFirst ["suggestion", "recommendation", "fix"]
    (rag_response.data.length + 1) rag_response.data

/-- First regulation capture (`(?:Regulation|Compliance|Reference):`). -/
def firstRegulationCapture (rag_response : String) : Option String :=
  scanFirst ["regulation", "compliance", "reference"]
    (rag_response.data.length + 1) rag_response.data

/-- Python `None`-or-string value. -/
def optJVal : Option String → JVal
  | some s => JVal.str s
  | none => JVal.null

/-- One labeled-line issue: the single whole-text section / severity /
suggestion / regulation captures are attached to every issue capture. -/
def labeledIssue (rag_response : String) (issue_text : String) : Issue :=
  [("section", JVal.str ((firstSectionCapture rag_response).getD "General")),
   ("issue", JVal.str (pyStrip issue_text)),
   ("severity", JVal.str ((firstSeverityCapture rag_response).getD "Medium")),
   ("suggestion", optJVal (firstSuggestionCapture rag_response)),
   ("regulation", JVal.str ((firstRegulationCapture rag_response).getD "ADGM Regulations"))]

/-- The labeled-line strategy. -/
def labeledStrategy (rag_response : String) : List Issue :=
  (issueCaptures rag_response).map (labeledIssue rag_response)

/-! ### Strategy 3: sentence heuristic -/

/-- `re.split(r'(?<=[.!?])\s+', text)`: split on whitespace runs preceded
by a sentence terminator.  `accRev` holds the current segment reversed. -/
def splitSentencesAux : Nat → List Char → List Char → List String
  | 0, accRev, _ => [⟨accRev.reverse⟩]
  | _, accRev, [] => [⟨accRev.reverse⟩]
  | fuel + 1, accRev, c :: t =>
    match accRev with
    | p :: _ =>
      if (p == '.' || p == '!' || p == '?') && isPySpace c then
        (⟨accRev.reverse⟩ : String) :: splitSentencesAux fuel [] ((c :: t).dropWhile isPySpace)
      else splitSentencesAux fuel (c :: accRev) t
    | [] => splitSentencesAux fuel (c :: accRev) t

/-- Sentence segmentation of the response. -/
def splitSentences (s : String) : List String :=
  splitSentencesAux (s.data.length + 1) [] s.data

/-- One step of the sentence heuristic: update the current section, then
emit an issue when the sentence contains a deficiency keyword. -/
def sentenceStep (section_names : List String) (st : Option String × List Issue)
    (sentence : String) : Option String × List Issue :=
  let sl := pyLower sentence
  let cur :=
    if ["in", "the", "section", "regarding", "part"].any (fun w => prefixAt w.data sl.data) then
      match section_names.find? (fun sec => pyIn (pyLower sec) sl) with
      | some sec => some sec
      | none => st.1
    else st.1
  if ["missing", "should", "required", "must", "incorrect", "issue"].any (fun w => pyIn w sl) then
    let severity :=
      if ["critical", "serious", "major", "high"].any (fun w => pyIn w sl) then "High"
      else if ["minor", "small", "low"].any (fun w => pyIn w sl) then "Low"
      else "Medium"
    let sect :=
      match cur with
      | some s => if s = "" then "General" else s
      | none => "General"
    (cur, st.2 ++ [[("section", JVal.str sect),
                    ("issue", JVal.str (pyStrip sentence)),
                    ("severity", JVal.str severity),
                    ("suggestion", JVal.null),
                    ("regulation", JVal.str "ADGM Regulations")]])
  else (cur, st.2)

/-- The sentence-heuristic strategy. -/
def sentenceStrategy (rag_response : String) (section_names : List String) : List Issue :=
  ((splitSentences rag_response).foldl (sentenceStep section_names) (none, [])).2

/-! ### The extraction cascade and `analyze_document` -/

/-- `DocumentAnalyzer._extract_issues_from_rag`: the three-strategy
cascade.  `doc_type` is received but never read by the Python body;
`section_names` is used only by the sentence heuristic. -/
def extract_issues_from_rag (rag_response doc_type : String)
    (section_names : List String) : List Issue :=
  let issues := jsonStrategy rag_response
  let issues := if issues.isEmpty then labeledStrategy rag_response else issues
  let issues :=
    if issues.isEmpty then sentenceStrategy rag_response section_names else issues
  issues

/-- The single High-severity issue returned for unidentifiable documents. -/
def unableIssue : Issue :=
  [("section", JVal.str "General"),
   ("issue", JVal.str "Unable to identify document type"),
   ("severity", JVal.str "High")]

/-- The synthesized fallback issue when every strategy yields nothing. -/
def fallbackIssue : Issue :=
  [("section", JVal.str "General"),
   ("issue", JVal.str "Document analysis completed but no specific issues were identified. Recommend manual review."),
   ("severity", JVal.str "Low")]

/-- `DocumentAnalyzer.analyze_document`.  The external RAG call of
`_analyze_with_rag` is modelled by the `rag_response` parameter; an empty
string covers both a falsy response and the exception path, either of
which makes `_analyze_with_rag` return no issues. -/
def analyze_document (content doc_type : String) (section_names : List String)
    (rag_response : String) : List Issue :=
  if content = "" ∨ doc_type = "Unknown" then [unableIssue]
  else
    let issues :=
      if rag_response = "" then []
      else extract_issues_from_rag rag_response doc_type section_names
    if issues.isEmpty then [fallbackIssue] else issues

/-! ### Section extraction (`document_processor._extract_document_sections`) -/

/-- A text run of a paragraph; only boldness of the first run is consulted
(`para.runs[0].bold`, with a falsy `None` modelled as `false`). -/
structure Run where
  bold : Bool
deriving DecidableEq

/-- A docx paragraph as consumed by `_extract_document_sections`. -/
structure Para where
  styleName : String
  runs : List Run
  text : String
deriving DecidableEq

/-- A document section: title, accumulated text, paragraph indices. -/
structure DocSection where
  title : String
  content : String
  paragraphs : List Nat
deriving DecidableEq

/-- `para.runs and para.runs[0].bold`. -/
def firstRunBold : List Run → Bool
  | [] => false
  | r :: _ => r.bold

/-- The heading test: heading style, or short bold first run, or short
non-empty all-caps text. -/
def isHeadingPara (p : Para) : Bool :=
  p.styleName.startsWith "Heading" ||
  (!p.runs.isEmpty && firstRunBold p.runs && decide ((pyStrip p.text).length < 100)) ||
  (pyIsUpper (pyStrip p.text).data && decide ((pyStrip p.text).length < 100) &&
    !(pyStrip p.text).isEmpty)

/-- `is_heading and para.text.strip()`: a heading paragraph that actually
starts a new section. -/
def emitHeading (p : Para) : Bool :=
  isHeadingPara p && !(pyStrip p.text).isEmpty

/-- Whether the paragraph at index `k` starts a new section. -/
def emitHeadingAt (paras : List Para) (k : Nat) : Bool :=
  match paras[k]? with
  | some p => emitHeading p
  | none => false

/-- Append the finished current section only when its accumulated content
is not whitespace-only (`if current_section["content"].strip()`). -/
def pushIf (done : List DocSection) (cur : DocSection) : List DocSection :=
  if (pyStrip cur.content).isEmpty then done else done ++ [cur]

/-- The accumulation loop of `_extract_document_sections`: `i` is the index
of the next paragraph, `done` the emitted sections, `cur` the section being
accumulated. -/
def extractAux : List Para → Nat → List DocSection → DocSection → List DocSection
  | [], _, done, cur => pushIf done cur
  | p :: rest, i, done, cur =>
    if emitHeading p then
      extractAux rest (i + 1) (pushIf done cur) ⟨pyStrip p.text, "", [i]⟩
    else
      extractAux rest (i + 1) done
        ⟨cur.title, cur.content ++ p.text ++ "\n", cur.paragraphs ++ [i]⟩

/-- `DocumentProcessor._extract_document_sections`. -/
def extract_document_sections (paras : List Para) : List DocSection :=
  extractAux paras 0 [] ⟨"General", "", []⟩

/-- The concatenation of all paragraph-index lists of a section list, in
order. -/
def allParagraphs (secs : List DocSection) : List Nat :=
  (secs.map DocSection.paragraphs).flatten

/-! ### Document-type identification (`document_analyzer.identify_document_type`) -/

/-- `utils/document_types.DOCUMENT_SIGNATURES`, in dict insertion order. -/
def DOCUMENT_SIGNATURES : List (String × String) :=
  [("articles of association of", "Articles of Association"),
   ("memorandum of association", "Memorandum of Association"),
   ("we, the undersigned directors", "Board Resolution"),
   ("resolution of the board of directors", "Board Resolution"),
   ("resolution of the shareholders", "Shareholder Resolution"),
   ("we, being the shareholders", "Shareholder Resolution"),
   ("special resolution of the members", "Shareholder Resolution"),
   ("employment contract", "Employment Contract"),
   ("contract of employment", "Employment Contract"),
   ("declaration of beneficial ownership", "UBO Declaration"),
   ("ubo declaration form", "UBO Declaration"),
   ("certificate of incorporation", "Company Incorporation"),
   ("register of members of", "Register of Members"),
   ("data protection policy", "Data Protection Policy"),
   ("appropriate policy document", "Data Protection Policy"),
   ("annual accounts for the financial year", "Annual Accounts"),
   ("branch registration application", "Branch Registration"),
   ("checklist – company set-up", "Checklist")]

/-- The result dict of `identify_document_type`; absent keys are modelled
by `none` / `false`. -/
structure TypeResult where
  type : String
  confidence : ℚ
  signature_match : Option String
  rag_identification : Bool
deriving DecidableEq

/-- First signature whose lowered phrase occurs in the lowered content
(dict iteration order decides ties). -/
def findSignatureMatch (content_lower : String) : Option (String × String) :=
  DOCUMENT_SIGNATURES.find? (fun sv => pyIn (pyLower sv.1) content_lower)

/-- The keyword / filename heuristic chain run when neither a signature nor
the RAG identifies the type. -/
def keywordFallback (filename_lower content_lower : String) : TypeResult :=
  if pyIn "article" filename_lower || pyIn "article" content_lower then
    ⟨"Articles of Association", 6/10, none, false⟩
  else if pyIn "memorandum" filename_lower || pyIn "memorandum" content_lower then
    ⟨"Memorandum of Association", 6/10, none, false⟩
  else if pyIn "board" filename_lower && pyIn "resolution" filename_lower then
    ⟨"Board Resolution", 6/10, none, false⟩
  else if pyIn "shareholder" filename_lower && pyIn "resolution" filename_lower then
    ⟨"Shareholder Resolution", 6/10, none, false⟩
  else if pyIn "employment" filename_lower || pyIn "contract" filename_lower then
    ⟨"Employment Contract", 6/10, none, false⟩
  else if pyIn "ubo" filename_lower || pyIn "beneficial owner" content_lower then
    ⟨"UBO Declaration", 6/10, none, false⟩
  else if pyIn "data protection" filename_lower || pyIn "data protection" content_lower then
    ⟨"Data Protection Policy", 6/10, none, false⟩
  else ⟨"Unknown", 0, none, false⟩

/-- `DocumentAnalyzer.identify_document_type`.  `ragType` models the
outcome of the RAG tier (`_extract_doc_type_from_rag` applied to the
external query): `none` covers an empty/unusable response or the exception
path, either of which falls through to the keyword heuristics. -/
def identify_document_type (filename content : String) (ragType : Option String) :
    TypeResult :=
  if content = "" then ⟨"Unknown", 0, none, false⟩
  else
    match findSignatureMatch (pyLower content) with
    | some sv => ⟨sv.2, 9/10, some sv.1, false⟩
    | none =>
      match ragType with
      | some t => ⟨t, 8/10, none, true⟩
      | none => keywordFallback (pyLower filename) (pyLower content)

/-! ### Process identification fallback
(`checklist_verifier._fallback_process_identification`) -/

/-- The indicator table, in dict insertion order. -/
def process_indicators : List (String × List String) :=
  [("Company Incorporation",
    ["Articles of Association", "Memorandum of Association", "incorporation"]),
   ("Employment Setup", ["Employment Contract", "employment"]),
   ("Annual Compliance", ["Annual Accounts", "annual"]),
   ("Corporate Governance Update",
    ["Board Resolution", "Shareholder Resolution", "governance"]),
   ("Branch Establishment", ["Branch", "branch"]),
   ("Data Protection Compliance", ["Data Protection", "data protection"])]

/-- The per-process required-document table. -/
def required_docs_table : List (String × List String) :=
  [("Company Incorporation",
    ["Articles of Association", "Memorandum of Association", "Board Resolution"]),
   ("Employment Setup", ["Employment Contract"]),
   ("Annual Compliance", ["Annual Accounts", "Board Resolution"]),
   ("Corporate Governance Update", ["Board Resolution", "Shareholder Resolution"]),
   ("Branch Establishment", ["Board Resolution"]),
   ("Data Protection Compliance", ["Data Protection Policy"])]

/-- A process score: the number of submitted document types containing one
of the process's indicators (the inner `break` makes each document type
count at most once). -/
def processScore (indicators : List String) (document_types : List String) : Nat :=
  (document_types.filter
    (fun d => indicators.any (fun ind => pyIn (pyLower ind) (pyLower d)))).length

/-- Python `max(items, key=...)` over (process, score) pairs: the first
maximum wins (later items replace only on a strictly greater key). -/
def pyMaxBySnd : (String × Nat) → List (String × Nat) → (String × Nat)
  | best, [] => best
  | best, x :: t => pyMaxBySnd (if best.2 < x.2 then x else best) t

/-- The result dict of `_fallback_process_identification`; the Unknown
branch returns a dict without `required_docs` / `optional_docs` keys,
modelled by `none`. -/
structure ProcResult where
  process : String
  confidence : ℚ
  required_docs : Option (List String)
  optional_docs : Option (List String)
deriving DecidableEq

/-- The scored (process, score) list, in table order. -/
def processScores (document_types : List String) : List (String × Nat) :=
  process_indicators.map (fun pi => (pi.1, processScore pi.2 document_types))

/-- `ChecklistVerifier._fallback_process_identification`. -/
def fallback_process_identification (document_types : List String) : ProcResult :=
  let scores := processScores document_types
  let best :=
    match scores with
    | [] => ("Unknown", 0)
    | b :: t => pyMaxBySnd b t
  if best.2 = 0 then ⟨"Unknown", 0, none, none⟩
  else
    ⟨best.1,
     min (7/10 : ℚ) ((best.2 : ℚ) / (document_types.length : ℚ)),
     some ((required_docs_table.lookup best.1).getD []),
     some []⟩

/-! ### RAG query degraded mode (`rag_engine.RAGEngine.query`) -/

/-- Availability of the three handles consulted by `query`:
`self.vectorstore`, `self.qa_chain`, `self.llm`. -/
structure RAGState where
  vectorstore : Bool
  qa_chain : Bool
  llm : Bool
deriving DecidableEq

/-- Provenance metadata of one retrieved source document. -/
structure SourceDoc where
  source : String
  document_type : String
deriving DecidableEq

/-- The fixed degraded-mode sentinel returned by `query`. -/
def ragSentinel : String :=
  "RAG system not fully initialized. Please ensure the vector database is properly built."

/-- The deduplicated `Sources:` listing appended to an answer. -/
def sourcesLines (seen : List String) : List SourceDoc → String
  | [] => ""
  | d :: t =>
    let info := d.document_type ++ " (" ++ d.source ++ ")"
    if seen.contains info then sourcesLines seen t
    else "- " ++ info ++ "\n" ++ sourcesLines (info :: seen) t

/-- `RAGEngine.query`.  The external chain invocation is modelled by
`chainResult`: `Except.error` covers the exception path of the `try`
block, `Except.ok` carries the answer text and the retrieved source
documents.  The function is total: every branch returns a string, so the
model never raises. -/
def query (st : RAGState) (question : String)
    (chainResult : Except String (String × List SourceDoc)) : String :=
  if !st.vectorstore || !st.qa_chain || !st.llm then ragSentinel
  else
    match chainResult with
    | Except.error e => "Error querying the knowledge base: " ++ e
    | Except.ok (answer, source_docs) =>
      if source_docs.isEmpty then answer
      else answer ++ "\n\nSources:\n" ++ sourcesLines [] source_docs

/-! ### Concrete inputs used to instantiate the theorems -/

/-- A response with one structured block and one labeled line. -/
def c1resp : String :=
  "Found problems. \x7b\"section\": \"Clause 3\", \"issue\": \"Wrong jurisdiction\"\x7d\nIssue: also this"

/-- A response matching none of the three extraction strategies. -/
def c2resp : String := "All provisions look compliant."

/-- A response with two labeled issue lines, a severity and a regulation. -/
def c3resp : String :=
  "Issue: missing signatory section\nSeverity: High\nIssue: vague language\nRegulation: ADGM Companies Regulations 2020"

/-- Paragraphs: plain intro, all-caps heading, body. -/
def wParas : List Para :=
  [⟨"Normal", [], "Intro text"⟩, ⟨"Normal", [], "TITLE"⟩, ⟨"Normal", [], "hello"⟩]

/-- Paragraphs: empty-text paragraph before the first heading.  Its
`General` section accumulates only whitespace, is dropped, and paragraph 0
appears in no section. -/
def cexParas : List Para :=
  [⟨"Normal", [], ""⟩, ⟨"Normal", [], "TITLE"⟩, ⟨"Normal", [], "hello"⟩]

/-! ## Helper lemmas -/

theorem isEmpty_false_ne_nil {α : Type} {l : List α} (h : l.isEmpty = false) :
    l ≠ [] :=
  List.isEmpty_eq_false.1 h

theorem rawCompliance_eq (m : List String) (iss : List Issue) :
    rawCompliance m iss =
      100 - 15 * (m.length : Int) - 5 * (countSeverity "High" iss : Int)
        - 2 * (countSeverity "Medium" iss : Int)
        - 1 * (countSeverity "Low" iss : Int) := by
  unfold rawCompliance
  cases m <;> simp

theorem countSeverity_append (s : String) (iss : List Issue) (x : Issue) :
    countSeverity s (iss ++ [x]) =
      countSeverity s iss + (if sevIs s x = true then 1 else 0) := by
  unfold countSeverity
  rw [List.filter_append]
  cases h : sevIs s x <;> simp [h]

theorem sevIs_str_ne {a b : String} {x : Issue} (h : sevIs a x = true)
    (hne : a ≠ b) : sevIs b x = false := by
  unfold sevIs at h ⊢
  cases hl : lookupKey "severity" x with
  | none => simp [hl] at h
  | some v =>
    simp only [hl] at h ⊢
    cases v <;> simp_all [jvalIsStr]

theorem clamp_le_clamp {a b : Int} (h : a ≤ b) :
    max 0 (min 100 a) ≤ max 0 (min 100 b) :=
  max_le_max le_rfl (min_le_min le_rfl h)

theorem clamp_sub_le {a b : Int} (h : a ≤ b) :
    max 0 (min 100 b) - max 0 (min 100 a) ≤ b - a := by
  simp only [max_def, min_def]
  split_ifs <;> omega

theorem lookupKey_append (k : String) (l1 l2 : List (String × JVal)) :
    lookupKey k (l1 ++ l2) =
      match lookupKey k l1 with
      | some v => some v
      | none => lookupKey k l2 := by
  induction l1 with
  | nil => simp [lookupKey]
  | cons kv t ih =>
    simp only [List.cons_append, lookupKey]
    split <;> simp [ih]

theorem hasKey_append_self (k : String) (v : JVal) (l : List (String × JVal)) :
    hasKey k (l ++ [(k, v)]) = true := by
  unfold hasKey
  rw [lookupKey_append]
  cases h : lookupKey k l <;> simp [lookupKey]

theorem find?_first_split {α : Type} {p : α → Bool} {l : List α} {a : α}
    (h : l.find? p = some a) :
    ∃ l1 l2, l = l1 ++ a :: l2 ∧ p a = true ∧ ∀ x ∈ l1, p x = false := by
  induction l with
  | nil => simp [List.find?] at h
  | cons b t ih =>
    cases hb : p b with
    | true =>
      rw [List.find?_cons_of_pos _ hb, Option.some_inj] at h
      subst h
      exact ⟨[], t, rfl, hb, by simp⟩
    | false =>
      rw [List.find?_cons_of_neg _ (by simp [hb])] at h
      obtain ⟨l1, l2, hsplit, hpa, hno⟩ := ih h
      refine ⟨b :: l1, l2, by rw [List.cons_append, hsplit], hpa, ?_⟩
      intro x hx
      rcases List.mem_cons.1 hx with hx | hx
      · subst hx
        exact hb
      · exact hno x hx

theorem pyMaxBySnd_spec (t : List (String × Nat)) (best : String × Nat) :
    (pyMaxBySnd best t = best ∨ pyMaxBySnd best t ∈ t) ∧
    best.2 ≤ (pyMaxBySnd best t).2 ∧
    ∀ x ∈ t, x.2 ≤ (pyMaxBySnd best t).2 := by
  induction t generalizing best with
  | nil => simp [pyMaxBySnd]
  | cons a t ih =>
    unfold pyMaxBySnd
    by_cases h : best.2 < a.2
    · rw [if_pos h]
      obtain ⟨h1, h2, h3⟩ := ih a
      refine ⟨?_, le_trans (le_of_lt h) h2, ?_⟩
      · rcases h1 with h1 | h1
        · exact Or.inr (by rw [h1]; exact List.mem_cons_self _ _)
        · exact Or.inr (List.mem_cons_of_mem _ h1)
      · intro x hx
        rcases List.mem_cons.1 hx with hx | hx
        · exact hx ▸ h2
        · exact h3 x hx
    · rw [if_neg h]
      obtain ⟨h1, h2, h3⟩ := ih best
      refine ⟨?_, h2, ?_⟩
      · rcases h1 with h1 | h1
        · exact Or.inl h1
        · exact Or.inr (List.mem_cons_of_mem _ h1)
      · intro x hx
        rcases List.mem_cons.1 hx with hx | hx
        · subst hx
          exact le_trans (Nat.le_of_not_lt h) h2
        · exact h3 x hx

theorem allParagraphs_nil : allParagraphs [] = [] := rfl

theorem allParagraphs_cons (s : DocSection) (l : List DocSection) :
    allParagraphs (s :: l) = s.paragraphs ++ allParagraphs l := by
  simp [allParagraphs]

theorem allParagraphs_append (l1 l2 : List DocSection) :
    allParagraphs (l1 ++ l2) = allParagraphs l1 ++ allParagraphs l2 := by
  simp [allParagraphs]

theorem mem_allParagraphs {j : Nat} {t : DocSection} {l : List DocSection}
    (ht : t ∈ l) (hj : j ∈ t.paragraphs) : j ∈ allParagraphs l := by
  rw [allParagraphs, List.mem_flatten]
  exact ⟨t.paragraphs, List.mem_map_of_mem _ ht, hj⟩

theorem pairwise_lt_snoc {l : List Nat} {i : Nat}
    (h : List.Pairwise (fun a b => a < b) l) (hlt : ∀ x ∈ l, x < i) :
    List.Pairwise (fun a b => a < b) (l ++ [i]) := by
  rw [List.pairwise_append]
  refine ⟨h, List.pairwise_singleton _ _, ?_⟩
  intro a ha b hb
  rw [List.mem_singleton] at hb
  subst hb
  exact hlt a ha

theorem pairwise_lt_append_singleton {A B : List Nat} {i : Nat}
    (h : List.Pairwise (fun a b => a < b) (A ++ B))
    (hlt : ∀ x ∈ A ++ B, x < i) :
    List.Pairwise (fun a b => a < b) (A ++ (B ++ [i]))  := by
  rw [← List.append_assoc]
  exact pairwise_lt_snoc h hlt

theorem prefix_pushIf (done : List DocSection) (cur : DocSection) :
    done <+: pushIf done cur := by
  rw [pushIf]
  split
  · exact List.prefix_refl _
  · exact ⟨[cur], rfl⟩

theorem extractAux_prefix (paras : List Para) :
    ∀ (i : Nat) (done : List DocSection) (cur : DocSection),
      done <+: extractAux paras i done cur := by
  induction paras with
  | nil => intro i done cur; exact prefix_pushIf done cur
  | cons p rest ih =>
    intro i done cur
    rw [extractAux]
    split
    · exact (prefix_pushIf done cur).trans (ih _ _ _)
    · exact ih _ _ _

theorem extractAux_mem (paras : List Para) :
    ∀ (i : Nat) (done : List DocSection) (cur : DocSection),
      ∀ s ∈ extractAux paras i done cur, ∀ j ∈ s.paragraphs,
        s ∈ done ∨ j ∈ cur.paragraphs ∨ i ≤ j := by
  induction paras with
  | nil =>
    intro i done cur s hs j hj
    rw [extractAux, pushIf] at hs
    split at hs
    · exact Or.inl hs
    · rcases List.mem_append.1 hs with h | h
      · exact Or.inl h
      · rw [List.mem_singleton] at h
        subst h
        exact Or.inr (Or.inl hj)
  | cons p rest ih =>
    intro i done cur s hs j hj
    rw [extractAux] at hs
    split at hs
    · rcases ih _ _ _ s hs j hj with h | h | h
      · rw [pushIf] at h
        split at h
        · exact Or.inl h
        · rcases List.mem_append.1 h with h | h
          · exact Or.inl h
          · rw [List.mem_singleton] at h
            subst h
            exact Or.inr (Or.inl hj)
      · simp at h
        subst h
        exact Or.inr (Or.inr le_rfl)
      · exact Or.inr (Or.inr (by omega))
    · rcases ih _ _ _ s hs j hj with h | h | h
      · exact Or.inl h
      · simp at h
        rcases h with h | h
        · exact Or.inr (Or.inl h)
        · subst h
          exact Or.inr (Or.inr le_rfl)
      · exact Or.inr (Or.inr (by omega))

theorem extractAux_sorted (paras : List Para) :
    ∀ (i : Nat) (done : List DocSection) (cur : DocSection),
      List.Pairwise (fun a b => a < b) (allParagraphs done ++ cur.paragraphs) →
      (∀ x ∈ allParagraphs done ++ cur.paragraphs, x < i) →
      (∀ s ∈ done, s.paragraphs ≠ []) →
      (cur.paragraphs = [] → cur.content = "") →
      List.Pairwise (fun a b => a < b)
          (allParagraphs (extractAux paras i done cur)) ∧
      (∀ s ∈ extractAux paras i done cur, s.paragraphs ≠ []) ∧
      (∀ x ∈ allParagraphs (extractAux paras i done cur),
        x < i + paras.length) := by
  induction paras with
  | nil =>
    intro i done cur hsort hlt hne hcur
    rw [extractAux, pushIf]
    split
    · refine ⟨List.Pairwise.sublist (List.sublist_append_left _ _) hsort,
        hne, ?_⟩
      intro x hx
      have := hlt x (List.mem_append.2 (Or.inl hx))
      omega
    · rename_i hemp
      have hcne : cur.paragraphs ≠ [] := by
        intro h0
        rw [hcur h0] at hemp
        exact hemp rfl
      refine ⟨?_, ?_, ?_⟩
      · rw [allParagraphs_append, allParagraphs_cons, allParagraphs_nil,
          List.append_nil]
        exact hsort
      · intro s hsmem
        rcases List.mem_append.1 hsmem with h | h
        · exact hne s h
        · rw [List.mem_singleton] at h
          subst h
          exact hcne
      · intro x hx
        rw [allParagraphs_append, allParagraphs_cons, allParagraphs_nil,
          List.append_nil] at hx
        have := hlt x hx
        omega
  | cons p rest ih =>
    intro i done cur hsort hlt hne hcur
    rw [extractAux]
    split
    · have hstep := ih (i + 1) (pushIf done cur) ⟨pyStrip p.text, "", [i]⟩
        ?_ ?_ ?_ ?_
      · refine ⟨hstep.1, hstep.2.1, ?_⟩
        intro x hx
        have := hstep.2.2 x hx
        simp only [List.length_cons]
        omega
      · show List.Pairwise _ (allParagraphs (pushIf done cur) ++ [i])
        rw [pushIf]
        split
        · exact pairwise_lt_snoc
            (List.Pairwise.sublist (List.sublist_append_left _ _) hsort)
            (fun x hx => hlt x (List.mem_append.2 (Or.inl hx)))
        · rw [allParagraphs_append, allParagraphs_cons, allParagraphs_nil,
            List.append_nil, List.append_assoc]
          exact pairwise_lt_append_singleton hsort hlt
      · show ∀ x ∈ allParagraphs (pushIf done cur) ++ [i], x < i + 1
        intro x hx
        rcases List.mem_append.1 hx with h | h
        · have hx2 : x ∈ allParagraphs done ++ cur.paragraphs := by
            revert h
            rw [pushIf]
            split
            · intro h
              exact List.mem_append.2 (Or.inl h)
            · rw [allParagraphs_append, allParagraphs_cons, allParagraphs_nil,
                List.append_nil]
              exact id
          have := hlt x hx2
          omega
        · rw [List.mem_singleton] at h
          omega
      · intro s hsmem
        revert hsmem
        rw [pushIf]
        split
        · exact hne s
        · intro hsmem
          rcases List.mem_append.1 hsmem with h | h
          · exact hne s h
          · rw [List.mem_singleton] at h
            subst h
            intro h0
            rename_i hemp
            rw [hcur h0] at hemp
            exact hemp rfl
      · intro h0
        cases h0
    · have hstep := ih (i + 1) done
        ⟨cur.title, cur.content ++ p.text ++ "\n", cur.paragraphs ++ [i]⟩
        ?_ ?_ hne ?_
      · refine ⟨hstep.1, hstep.2.1, ?_⟩
        intro x hx
        have := hstep.2.2 x hx
        simp only [List.length_cons]
        omega
      · show List.Pairwise _ (allParagraphs done ++ (cur.paragraphs ++ [i]))
        exact pairwise_lt_append_singleton hsort hlt
      · show ∀ x ∈ allParagraphs done ++ (cur.paragraphs ++ [i]), x < i + 1
        intro x hx
        rw [← List.append_assoc] at hx
        rcases List.mem_append.1 hx with h | h
        · have := hlt x h
          omega
        · rw [List.mem_singleton] at h
          omega
      · intro h0
        simp at h0

theorem filter_contains_le_one (secs : List DocSection)
    (h : List.Pairwise (fun a b => a < b) (allParagraphs secs)) (j : Nat) :
    (secs.filter (fun s => s.paragraphs.contains j)).length ≤ 1 := by
  induction secs with
  | nil => simp
  | cons s rest ih =>
    rw [allParagraphs_cons, List.pairwise_append] at h
    obtain ⟨h1, h2, h3⟩ := h
    rw [List.filter_cons]
    by_cases hc : s.paragraphs.contains j = true
    · have hrest : rest.filter (fun s => s.paragraphs.contains j) = [] := by
        rw [List.filter_eq_nil_iff]
        intro t ht hcont
        have hj1 : j ∈ s.paragraphs := by simpa using hc
        have hj2 : j ∈ allParagraphs rest :=
          mem_allParagraphs ht (by simpa using hcont)
        exact absurd (h3 j hj1 j hj2) (lt_irrefl j)
      rw [if_pos hc, hrest]
      simp
    · rw [if_neg hc]
      exact ih h2

theorem dropWhile_head_false {α : Type} {p : α → Bool} {l : List α} {x : α}
    {xs : List α} (h : l.dropWhile p = x :: xs) : p x = false := by
  induction l with
  | nil => simp [List.dropWhile] at h
  | cons a t ih =>
    rw [List.dropWhile_cons] at h
    split at h
    · exact ih h
    · rename_i hp
      injection h with h1 _
      subst h1
      exact Bool.of_not_eq_true hp

theorem extractAux_absorb (pre : List Para) :
    ∀ (i : Nat) (done : List DocSection) (cur : DocSection),
      (∀ q ∈ pre, emitHeading q = false) →
      ∃ c' : DocSection, c'.title = cur.title ∧
        ∀ rest : List Para,
          extractAux (pre ++ rest) i done cur =
            extractAux rest (i + pre.length) done c' := by
  induction pre with
  | nil =>
    intro i done cur _
    exact ⟨cur, rfl, fun rest => by simp⟩
  | cons q pre ih =>
    intro i done cur hq
    have hq0 : emitHeading q = false := hq q (List.mem_cons_self _ _)
    obtain ⟨c', ht, heq⟩ := ih (i + 1) done
      ⟨cur.title, cur.content ++ q.text ++ "\n", cur.paragraphs ++ [i]⟩
      (fun r hr => hq r (List.mem_cons_of_mem _ hr))
    refine ⟨c', ht, fun rest => ?_⟩
    show extractAux (q :: (pre ++ rest)) i done cur = _
    rw [extractAux]
    rw [if_neg (by simp [hq0])]
    have harith : i + (q :: pre).length = (i + 1) + pre.length := by
      simp only [List.length_cons]
      omega
    rw [harith]
    exact heq rest

/-! ## Claim theorems -/

/-- Claim C10: the compliance-percentage computation is independent of the
`document_types` argument — it depends only on the missing-document list
and the issue list, so submitted document types cannot interfere with the
score. -/
theorem score_ignores_document_types :
    ∀ (dts1 dts2 missing_docs : List String) (issues_found : List Issue),
      calculate_compliance_percentage dts1 missing_docs issues_found =
        calculate_compliance_percentage dts2 missing_docs issues_found :=
  fun _ _ _ _ => rfl

/-- Claim C4: the compliance score equals
`max(0, min(100, 100 - 15*missing - 5*High - 2*Medium - 1*Low))`; it is
order-independent in both list inputs; it always lies in `[0, 100]`;
adding one Low issue never increases it and decreases it by at most 1;
adding one High issue decreases the pre-clamp value by exactly 5; and the
concrete scenario `missingDocs = ["UBO Declaration"]` with one High and
one Low issue scores 79. -/
theorem compliance_score_spec :
    (∀ (dts m : List String) (iss : List Issue),
      calculate_compliance_percentage dts m iss =
        max 0 (min 100 (100 - 15 * (m.length : Int)
          - 5 * (countSeverity "High" iss : Int)
          - 2 * (countSeverity "Medium" iss : Int)
          - 1 * (countSeverity "Low" iss : Int)))) ∧
    (∀ (dts m m' : List String) (iss iss' : List Issue),
      m.Perm m' → iss.Perm iss' →
      calculate_compliance_percentage dts m iss =
        calculate_compliance_percentage dts m' iss') ∧
    (∀ (dts m : List String) (iss : List Issue),
      0 ≤ calculate_compliance_percentage dts m iss ∧
        calculate_compliance_percentage dts m iss ≤ 100) ∧
    (∀ (dts m : List String) (iss : List Issue) (x : Issue),
      sevIs "Low" x = true →
      calculate_compliance_percentage dts m (iss ++ [x]) ≤
          calculate_compliance_percentage dts m iss ∧
        calculate_compliance_percentage dts m iss -
          calculate_compliance_percentage dts m (iss ++ [x]) ≤ 1) ∧
    (∀ (m : List String) (iss : List Issue) (x : Issue),
      sevIs "High" x = true →
      rawCompliance m (iss ++ [x]) = rawCompliance m iss - 5) ∧
    calculate_compliance_percentage [] ["UBO Declaration"]
      [[("severity", JVal.str "High")], [("severity", JVal.str "Low")]] = 79 := by
  have hform : ∀ (m : List String) (iss : List Issue),
      rawCompliance m iss =
        100 - 15 * (m.length : Int) - 5 * (countSeverity "High" iss : Int)
          - 2 * (countSeverity "Medium" iss : Int)
          - 1 * (countSeverity "Low" iss : Int) := rawCompliance_eq
  refine ⟨?_, ?_, ?_, ?_, ?_, ?_⟩
  · intro dts m iss
    unfold calculate_compliance_percentage
    rw [hform]
  · intro dts m m' iss iss' hm hi
    unfold calculate_compliance_percentage
    rw [hform, hform, hm.length_eq]
    have hc : ∀ s : String, countSeverity s iss = countSeverity s iss' :=
      fun s => (hi.filter (sevIs s)).length_eq
    rw [hc "High", hc "Medium", hc "Low"]
  · intro dts m iss
    unfold calculate_compliance_percentage
    constructor
    · exact le_max_left _ _
    · exact max_le (by norm_num) (min_le_left _ _)
  · intro dts m iss x hx
    have hH : sevIs "High" x = false := sevIs_str_ne hx (by decide)
    have hM : sevIs "Medium" x = false := sevIs_str_ne hx (by decide)
    have hraw : rawCompliance m (iss ++ [x]) = rawCompliance m iss - 1 := by
      rw [hform, hform, countSeverity_append, countSeverity_append,
        countSeverity_append, hH, hM, hx]
      simp
      ring
    unfold calculate_compliance_percentage
    rw [hraw]
    constructor
    · exact clamp_le_clamp (by omega)
    · have := clamp_sub_le (a := rawCompliance m iss - 1)
        (b := rawCompliance m iss) (by omega)
      omega
  · intro m iss x hx
    have hM : sevIs "Medium" x = false := sevIs_str_ne hx (by decide)
    have hL : sevIs "Low" x = false := sevIs_str_ne hx (by decide)
    rw [hform, hform, countSeverity_append, countSeverity_append,
      countSeverity_append, hM, hL, hx]
    simp
    ring
  · rfl

/-- Claim C9: a document with empty content or an `Unknown` identified type
short-circuits `analyze_document` to exactly one High-severity `General`
issue reading `Unable to identify document type` — which is not the
Low-severity manual-review fallback issue. -/
theorem unknown_type_single_high_issue (content doc_type : String)
    (section_names : List String) (rag_response : String)
    (h : content = "" ∨ doc_type = "Unknown") :
    analyze_document content doc_type section_names rag_response = [unableIssue] ∧
    lookupKey "section" unableIssue = some (JVal.str "General") ∧
    lookupKey "issue" unableIssue =
      some (JVal.str "Unable to identify document type") ∧
    lookupKey "severity" unableIssue = some (JVal.str "High") ∧
    [unableIssue] ≠ [fallbackIssue] := by
  refine ⟨?_, rfl, rfl, rfl, ?_⟩
  · unfold analyze_document
    rw [if_pos h]
  · intro hq
    have h2 := congrArg (fun l => lookupKey "severity" (l.headD [])) hq
    simp only [unableIssue, fallbackIssue, List.headD_cons, lookupKey] at h2
    simp at h2

/-- Claim C2: when the document has non-empty content and a non-Unknown
type but all three extraction strategies yield nothing on the raw answer,
`analyze_document` returns exactly the single Low-severity manual-review
fallback issue; and the issue list of an analysis is never empty. -/
theorem fallback_guarantee (content doc_type rag_response : String)
    (section_names : List String)
    (hc : content ≠ "") (ht : doc_type ≠ "Unknown")
    (h1 : jsonStrategy rag_response = [])
    (h2 : labeledStrategy rag_response = [])
    (h3 : sentenceStrategy rag_response section_names = []) :
    analyze_document content doc_type section_names rag_response =
      [fallbackIssue] ∧
    ∀ (c t r : String), analyze_document c t section_names r ≠ [] := by
  constructor
  · have hext : extract_issues_from_rag rag_response doc_type section_names = [] := by
      simp [extract_issues_from_rag, h1, h2, h3]
    have hu : ¬ (content = "" ∨ doc_type = "Unknown") := by tauto
    by_cases hr : rag_response = ""
    · simp [analyze_document, hu, hr]
    · simp [analyze_document, hu, hr, hext]
  · intro c t r
    by_cases hu : c = "" ∨ t = "Unknown"
    · simp [analyze_document, hu]
    · by_cases hr : r = ""
      · simp [analyze_document, hu, hr]
      · simp only [analyze_document, if_neg hu, if_neg hr]
        split
        · simp
        · rename_i he
          exact isEmpty_false_ne_nil (Bool.of_not_eq_true he)

/-- Claim C8: whenever the vector store, the QA chain, or the LLM handle is
unavailable, `query` returns the fixed not-initialized sentinel string; the
model is a total function, so no exception reaches the caller. -/
theorem query_degraded_sentinel (st : RAGState) (question : String)
    (chainResult : Except String (String × List SourceDoc))
    (h : st.vectorstore = false ∨ st.qa_chain = false ∨ st.llm = false) :
    query st question chainResult = ragSentinel := by
  unfold query
  rcases h with h | h | h <;> rw [if_pos (by simp [h])]

/-- Claim C1: if the response contains at least one brace-delimited block
(in the sense of the non-greedy `\{[\s\S]*?\}` scan) accepted as a JSON
record with `"section"` and `"issue"` keys, then the extractor returns
exactly the issues derived from the accepted blocks — strategies 2 and 3
contribute nothing — and a block's missing severity defaults to
`"Medium"`, appended to the record. -/
theorem extraction_cascade_precedence (rag_response doc_type : String)
    (section_names : List String) (h : jsonStrategy rag_response ≠ []) :
    extract_issues_from_rag rag_response doc_type section_names =
      jsonStrategy rag_response ∧
    jsonStrategy rag_response = (jsonMatches rag_response).filterMap acceptBlock ∧
    (∀ iss ∈ jsonStrategy rag_response, hasKey "severity" iss = true) ∧
    (∀ b ∈ jsonMatches rag_response, ∀ fields,
      pyJsonLoads b = some (JVal.obj fields) →
      hasKey "section" fields = true → hasKey "issue" fields = true →
      hasKey "severity" fields = false →
      acceptBlock b = some (fields ++ [("severity", JVal.str "Medium")])) := by
  refine ⟨?_, rfl, ?_, ?_⟩
  · have hf : (jsonStrategy rag_response).isEmpty = false :=
      List.isEmpty_eq_false.2 h
    simp [extract_issues_from_rag, hf]
  · intro iss hiss
    rw [jsonStrategy, List.mem_filterMap] at hiss
    obtain ⟨b, _, hb⟩ := hiss
    unfold acceptBlock at hb
    split at hb
    · split at hb
      · rw [Option.some_inj] at hb
        subst hb
        split
        · assumption
        · exact hasKey_append_self _ _ _
      · cases hb
    · cases hb
  · intro b _ fields hp hsec hiss hsev
    unfold acceptBlock
    rw [hp]
    simp [hsec, hiss, hsev]

/-- Claim C3: when no structured block is accepted but at least one issue
marker matches, the extractor returns one issue per issue-marker capture,
and every one of them carries the same section / severity / suggestion /
regulation values — each taken from the first match of the corresponding
pattern in the whole response, with defaults `"General"`, `"Medium"`, no
suggestion, and `"ADGM Regulations"`. -/
theorem labeled_line_binding (rag_response doc_type : String)
    (section_names : List String)
    (h1 : jsonStrategy rag_response = [])
    (h2 : issueCaptures rag_response ≠ []) :
    extract_issues_from_rag rag_response doc_type section_names =
      (issueCaptures rag_response).map (labeledIssue rag_response) ∧
    ∀ iss ∈ extract_issues_from_rag rag_response doc_type section_names,
      lookupKey "section" iss =
        some (JVal.str ((firstSectionCapture rag_response).getD "General")) ∧
      lookupKey "severity" iss =
        some (JVal.str ((firstSeverityCapture rag_response).getD "Medium")) ∧
      lookupKey "suggestion" iss =
        some (optJVal (firstSuggestionCapture rag_response)) ∧
      lookupKey "regulation" iss =
        some (JVal.str ((firstRegulationCapture rag_response).getD
          "ADGM Regulations")) := by
  have hmap : ((issueCaptures rag_response).map (labeledIssue rag_response)).isEmpty
      = false := by
    rw [List.isEmpty_eq_false]
    intro hm
    exact h2 (List.map_eq_nil_iff.1 hm)
  have hmain : extract_issues_from_rag rag_response doc_type section_names =
      (issueCaptures rag_response).map (labeledIssue rag_response) := by
    simp [extract_issues_from_rag, h1, labeledStrategy, hmap]
  refine ⟨hmain, ?_⟩
  intro iss hiss
  rw [hmain, List.mem_map] at hiss
  obtain ⟨t, _, ht⟩ := hiss
  subst ht
  simp [labeledIssue, lookupKey]

/-- Witness for C1: on a concrete response holding one accepted block plus
a labeled line, the extractor returns exactly the block-derived issue with
the defaulted `Medium` severity. -/
theorem extraction_cascade_precedence_witness :
    extract_issues_from_rag c1resp "Board Resolution" [] = jsonStrategy c1resp ∧
    jsonStrategy c1resp =
      [[("section", JVal.str "Clause 3"), ("issue", JVal.str "Wrong jurisdiction"),
        ("severity", JVal.str "Medium")]] :=
  ⟨(extraction_cascade_precedence c1resp "Board Resolution" []
      (isEmpty_false_ne_nil rfl)).1, rfl⟩

/-- Witness for C2: a concrete response matching no strategy yields the
single manual-review fallback issue. -/
theorem fallback_guarantee_witness :
    analyze_document "Some content" "Board Resolution" [] c2resp =
      [fallbackIssue] :=
  (fallback_guarantee "Some content" "Board Resolution" c2resp []
    (by decide) (by decide) rfl rfl rfl).1

/-- Witness for C3: on a concrete response with two labeled issue lines,
both extracted issues share the first severity and regulation captures and
the defaulted section. -/
theorem labeled_line_binding_witness :
    extract_issues_from_rag c3resp "Employment Contract" [] =
      (issueCaptures c3resp).map (labeledIssue c3resp) ∧
    (issueCaptures c3resp).map (labeledIssue c3resp) =
      [[("section", JVal.str "General"),
        ("issue", JVal.str "missing signatory section"),
        ("severity", JVal.str "High"),
        ("suggestion", JVal.null),
        ("regulation", JVal.str "ADGM Companies Regulations 2020")],
       [("section", JVal.str "General"),
        ("issue", JVal.str "vague language"),
        ("severity", JVal.str "High"),
        ("suggestion", JVal.null),
        ("regulation", JVal.str "ADGM Companies Regulations 2020")]] :=
  ⟨(labeled_line_binding c3resp "Employment Contract" [] rfl
      (isEmpty_false_ne_nil rfl)).1, rfl⟩

/-- Witness for C4: the concrete 79-point scenario, and low-severity
monotonicity instantiated at a concrete issue list. -/
theorem compliance_score_witness :
    calculate_compliance_percentage [] ["UBO Declaration"]
        [[("severity", JVal.str "High")], [("severity", JVal.str "Low")]] = 79 ∧
    calculate_compliance_percentage [] [] [[("severity", JVal.str "Low")]] ≤
      calculate_compliance_percentage [] [] [] :=
  ⟨compliance_score_spec.2.2.2.2.2,
   by
     have h := (compliance_score_spec.2.2.2.1 [] [] []
       [("severity", JVal.str "Low")] rfl).1
     simpa using h⟩

/-- Witness for C8: a concrete unavailable vector store yields the
sentinel. -/
theorem query_degraded_sentinel_witness :
    query ⟨false, true, true⟩ "What documents are required?"
      (Except.ok ("an answer", [])) = ragSentinel :=
  query_degraded_sentinel ⟨false, true, true⟩ "What documents are required?"
    (Except.ok ("an answer", [])) (Or.inl rfl)

/-- Witness for C9: empty content yields the single High-severity issue. -/
theorem unknown_type_single_high_issue_witness :
    analyze_document "" "Board Resolution" [] "some response" = [unableIssue] :=
  (unknown_type_single_high_issue "" "Board Resolution" [] "some response"
    (Or.inl rfl)).1

/-- Claim C6: the three identification tiers of `identify_document_type`.
A non-empty content containing some signature phrase is classified by the
FIRST matching table entry — the table splits as `l1 ++ e' :: l2` with no
entry of `l1` matching, so table order decides ties — at confidence 0.9
with the signature recorded; with no signature match and no RAG
identification the keyword chain answers at confidence 0.6 or falls
through to Unknown at 0.0; content containing exactly the phrase
`resolution of the board of directors` is classified as `Board Resolution`
at 0.9; and on a content matching two signature phrases the earlier table
entry (`memorandum of association`) wins the tie. -/
theorem document_type_tiers :
    (∀ (filename content : String) (ragType : Option String), content ≠ "" →
      ∀ e ∈ DOCUMENT_SIGNATURES, pyIn (pyLower e.1) (pyLower content) = true →
      ∃ l1 e' l2, DOCUMENT_SIGNATURES = l1 ++ e' :: l2 ∧
        pyIn (pyLower e'.1) (pyLower content) = true ∧
        (∀ e2 ∈ l1, pyIn (pyLower e2.1) (pyLower content) = false) ∧
        identify_document_type filename content ragType =
          ⟨e'.2, 9/10, some e'.1, false⟩) ∧
    (∀ (filename content : String), content ≠ "" →
      findSignatureMatch (pyLower content) = none →
      identify_document_type filename content none =
        keywordFallback (pyLower filename) (pyLower content) ∧
      ((keywordFallback (pyLower filename) (pyLower content)).confidence = 6/10 ∨
        keywordFallback (pyLower filename) (pyLower content) =
          ⟨"Unknown", 0, none, false⟩)) ∧
    identify_document_type "board_resolution.docx"
      "This is a resolution of the board of directors of the company." none =
      ⟨"Board Resolution", 9/10, some "resolution of the board of directors",
        false⟩ ∧
    identify_document_type "tie.docx"
      "The memorandum of association records a resolution of the board of directors." none =
      ⟨"Memorandum of Association", 9/10, some "memorandum of association",
        false⟩ := by
  refine ⟨?_, ?_, ?_, ?_⟩
  · intro filename content ragType hc e he hm
    have hne : findSignatureMatch (pyLower content) ≠ none := by
      intro h0
      rw [findSignatureMatch, List.find?_eq_none] at h0
      exact h0 e he hm
    cases hs : findSignatureMatch (pyLower content) with
    | none => exact absurd hs hne
    | some sv =>
      have hs' : DOCUMENT_SIGNATURES.find?
          (fun sv => pyIn (pyLower sv.1) (pyLower content)) = some sv := hs
      obtain ⟨l1, l2, hsplit, hpa, hno⟩ := find?_first_split hs'
      refine ⟨l1, sv, l2, hsplit, by simpa using hpa, ?_, ?_⟩
      · intro e2 he2
        simpa using hno e2 he2
      · simp [identify_document_type, hc, hs]
  · intro filename content hc hnone
    refine ⟨by simp [identify_document_type, hc, hnone], ?_⟩
    unfold keywordFallback
    split_ifs <;> simp
  · rfl
  · rfl

/-- Claim C7: the process-identification fallback returns Unknown at
confidence 0 when every process scores zero; otherwise it returns a
max-scoring process at confidence `min(0.7, score / submitted)` together
with that process's fixed required-document list; and
`["Employment Contract"]` maps to `Employment Setup` at 0.7. -/
theorem process_fallback_spec (document_types : List String)
    (hne : document_types ≠ []) :
    ((∀ pi ∈ process_indicators, processScore pi.2 document_types = 0) →
      fallback_process_identification document_types =
        ⟨"Unknown", 0, none, none⟩) ∧
    ((¬ ∀ pi ∈ process_indicators, processScore pi.2 document_types = 0) →
      ∃ pi ∈ process_indicators,
        (∀ qi ∈ process_indicators,
          processScore qi.2 document_types ≤ processScore pi.2 document_types) ∧
        fallback_process_identification document_types =
          ⟨pi.1,
            min (7/10 : ℚ)
              ((processScore pi.2 document_types : ℚ) /
                (document_types.length : ℚ)),
            some ((required_docs_table.lookup pi.1).getD []), some []⟩) ∧
    fallback_process_identification ["Employment Contract"] =
      ⟨"Employment Setup", 7/10, some ["Employment Contract"], some []⟩ := by
  have hscores : ∀ x ∈ processScores document_types,
      ∃ pi ∈ process_indicators, x = (pi.1, processScore pi.2 document_types) := by
    intro x hx
    rw [processScores, List.mem_map] at hx
    obtain ⟨pi, hpi, hx⟩ := hx
    exact ⟨pi, hpi, hx.symm⟩
  have hmem : ∀ pi ∈ process_indicators,
      (pi.1, processScore pi.2 document_types) ∈ processScores document_types := by
    intro pi hpi
    rw [processScores]
    exact List.mem_map_of_mem _ hpi
  cases hsc : processScores document_types with
  | nil => simp [processScores, process_indicators] at hsc
  | cons b t =>
    have hb := pyMaxBySnd_spec t b
    set best := pyMaxBySnd b t with hbest
    have hbestMem : best ∈ processScores document_types := by
      rw [hsc]
      rcases hb.1 with h | h
      · rw [h]; exact List.mem_cons_self _ _
      · exact List.mem_cons_of_mem _ h
    have hbestMax : ∀ x ∈ processScores document_types, x.2 ≤ best.2 := by
      intro x hx
      rw [hsc] at hx
      rcases List.mem_cons.1 hx with h | h
      · rw [h]; exact hb.2.1
      · exact hb.2.2 x h
    obtain ⟨pb, hpb, hpbeq⟩ := hscores best hbestMem
    refine ⟨?_, ?_, ?_⟩
    · intro hzero
      have hb0 : best.2 = 0 := by rw [hpbeq]; exact hzero pb hpb
      simp only [fallback_process_identification, hsc]
      rw [← hbest, if_pos hb0]
    · intro hnz
      push_neg at hnz
      obtain ⟨qi, hqi, hqz⟩ := hnz
      have hq : processScore qi.2 document_types ≤ best.2 :=
        hbestMax _ (hmem qi hqi)
      have hb0 : best.2 ≠ 0 := by omega
      refine ⟨pb, hpb, ?_, ?_⟩
      · intro ri hri
        have hm := hbestMax _ (hmem ri hri)
        rw [hpbeq] at hm
        simpa using hm
      · simp only [fallback_process_identification, hsc]
        rw [← hbest, if_neg hb0, hpbeq]
    · show fallback_process_identification ["Employment Contract"] = _
      have h1 : processScores ["Employment Contract"] =
          [("Company Incorporation", 0), ("Employment Setup", 1),
           ("Annual Compliance", 0), ("Corporate Governance Update", 0),
           ("Branch Establishment", 0), ("Data Protection Compliance", 0)] := by
        decide
      simp only [fallback_process_identification, h1]
      norm_num [pyMaxBySnd, required_docs_table, List.lookup]
      decide

/-- Witness for C6: the signature tier applied at the concrete Board
Resolution content, with every hypothesis discharged by evaluation; the
returned entry is the first match in table order. -/
theorem document_type_tiers_witness :
    ∃ l1 e' l2, DOCUMENT_SIGNATURES = l1 ++ e' :: l2 ∧
      pyIn (pyLower e'.1)
        (pyLower "Herewith the resolution of the board of directors.") = true ∧
      (∀ e2 ∈ l1, pyIn (pyLower e2.1)
        (pyLower "Herewith the resolution of the board of directors.") = false) ∧
      identify_document_type "minutes.docx"
          "Herewith the resolution of the board of directors." none =
        ⟨e'.2, 9/10, some e'.1, false⟩ :=
  document_type_tiers.1 "minutes.docx"
    "Herewith the resolution of the board of directors." none (by decide)
    ("resolution of the board of directors", "Board Resolution") (by decide)
    (by decide)

/-- Witness for C7: the non-zero branch applied at the concrete
single-document list. -/
theorem process_fallback_spec_witness :
    ∃ pi ∈ process_indicators,
      (∀ qi ∈ process_indicators,
        processScore qi.2 ["Employment Contract"] ≤
          processScore pi.2 ["Employment Contract"]) ∧
      fallback_process_identification ["Employment Contract"] =
        ⟨pi.1,
          min (7/10 : ℚ)
            ((processScore pi.2 ["Employment Contract"] : ℚ) /
              ((["Employment Contract"] : List String).length : ℚ)),
          some ((required_docs_table.lookup pi.1).getD []), some []⟩ :=
  (process_fallback_spec ["Employment Contract"] (by decide)).2.1 (by decide)

/-- Counterexample for C5: with an empty-text paragraph before the first
heading, the whitespace-only `General` section is discarded, so paragraph
index 0 appears in no section's index list (refuting "exactly one") and no
leading `General` section exists (refuting the collection clause). -/
theorem section_partition_cex :
    (¬ ∃ s ∈ extract_document_sections cexParas, 0 ∈ s.paragraphs) ∧
    (∀ s ∈ extract_document_sections cexParas, ¬ s.title = "General") := by
  decide

/-- Claim C5 (amended): the flattened paragraph-index lists of the emitted
sections are strictly increasing (hence every paragraph index 0..N-1
appears in AT MOST one section — an index is omitted exactly when its
section's accumulated content is whitespace-only — and sections are
ordered by first paragraph index); every emitted section is non-empty with
indices below N; and any emitted paragraph preceding the first
section-starting heading lies in a leading section titled `General`. -/
theorem section_partition_amended (paras : List Para) :
    List.Pairwise (fun a b => a < b)
        (allParagraphs (extract_document_sections paras)) ∧
    (∀ s ∈ extract_document_sections paras,
      s.paragraphs ≠ [] ∧ ∀ j ∈ s.paragraphs, j < paras.length) ∧
    (∀ j : Nat,
      ((extract_document_sections paras).filter
        (fun s => s.paragraphs.contains j)).length ≤ 1) ∧
    (∀ s ∈ extract_document_sections paras, ∀ j ∈ s.paragraphs,
      (∀ k, k ≤ j → emitHeadingAt paras k = false) →
      s.title = "General" ∧
        (extract_document_sections paras).head? = some s) := by
  obtain ⟨hsort, hne, hbound⟩ := extractAux_sorted paras 0 [] ⟨"General", "", []⟩
    (by simp [allParagraphs]) (by simp [allParagraphs]) (by simp) (fun _ => rfl)
  refine ⟨hsort, ?_, ?_, ?_⟩
  · intro s hs
    refine ⟨hne s hs, ?_⟩
    intro j hj
    have := hbound j (mem_allParagraphs hs hj)
    omega
  · intro j
    exact filter_contains_le_one _ hsort j
  · intro s hs j hj hpre
    have hpreNo : ∀ q ∈ paras.takeWhile (fun p => !emitHeading p),
        emitHeading q = false := by
      intro q hqmem
      have := List.mem_takeWhile_imp hqmem
      simpa using this
    obtain ⟨c', htitle, habs⟩ :=
      extractAux_absorb (paras.takeWhile (fun p => !emitHeading p)) 0 []
        ⟨"General", "", []⟩ hpreNo
    have hsplit : paras.takeWhile (fun p => !emitHeading p) ++
        paras.dropWhile (fun p => !emitHeading p) = paras :=
      List.takeWhile_append_dropWhile _ _
    have hrw : extract_document_sections paras =
        extractAux (paras.dropWhile (fun p => !emitHeading p))
          (paras.takeWhile (fun p => !emitHeading p)).length [] c' := by
      rw [extract_document_sections]
      conv_lhs => rw [← hsplit]
      rw [habs (paras.dropWhile (fun p => !emitHeading p))]
      congr 1
      omega
    cases hrest : paras.dropWhile (fun p => !emitHeading p) with
    | nil =>
      have hres : extract_document_sections paras = pushIf [] c' := by
        rw [hrw, hrest, extractAux]
      rw [hres] at hs
      rw [pushIf] at hs
      split at hs
      · cases hs
      · rename_i hemp
        rw [List.nil_append, List.mem_singleton] at hs
        refine ⟨by rw [hs, htitle], ?_⟩
        rw [hres, pushIf, if_neg hemp, hs]
        rfl
    | cons ph rest2 =>
      have hph : emitHeading ph = true := by
        have h0 := dropWhile_head_false hrest
        simpa using h0
      have hres2 : extract_document_sections paras =
          extractAux rest2 ((paras.takeWhile (fun p => !emitHeading p)).length + 1)
            (pushIf [] c')
            ⟨pyStrip ph.text, "",
              [(paras.takeWhile (fun p => !emitHeading p)).length]⟩ := by
        rw [hrw, hrest, extractAux, if_pos hph]
      have hjlt : j < (paras.takeWhile (fun p => !emitHeading p)).length := by
        by_contra hge
        push_neg at hge
        have h0 : paras[(paras.takeWhile (fun p => !emitHeading p)).length]? =
            some ph := by
          have h1 : (paras.takeWhile (fun p => !emitHeading p) ++
              paras.dropWhile (fun p => !emitHeading p))[
                (paras.takeWhile (fun p => !emitHeading p)).length]? = some ph := by
            rw [List.getElem?_append_right (le_refl _)]
            simp [hrest]
          rwa [hsplit] at h1
        have hat : emitHeadingAt paras
            (paras.takeWhile (fun p => !emitHeading p)).length = true := by
          rw [emitHeadingAt, h0]
          exact hph
        have := hpre _ hge
        rw [hat] at this
        cases this
      have hs2 : s ∈ extractAux rest2
          ((paras.takeWhile (fun p => !emitHeading p)).length + 1)
          (pushIf [] c')
          ⟨pyStrip ph.text, "",
            [(paras.takeWhile (fun p => !emitHeading p)).length]⟩ := by
        rw [← hres2]
        exact hs
      rcases extractAux_mem rest2 _ _ _ s hs2 j hj with h | h | h
      · rw [pushIf] at h
        split at h
        · cases h
        · rename_i hemp
          rw [List.nil_append, List.mem_singleton] at h
          refine ⟨by rw [h, htitle], ?_⟩
          have hpref : pushIf [] c' <+: extract_document_sections paras := by
            rw [hres2]
            exact extractAux_prefix _ _ _ _
          rw [pushIf, if_neg hemp] at hpref
          obtain ⟨tail, htail⟩ := hpref
          rw [← htail, h]
          rfl
      · simp at h
        omega
      · omega

/-- Witness for C5 (amended): on a concrete three-paragraph document whose
intro text is non-empty, the pre-heading paragraph 0 lies in the leading
`General` section. -/
theorem section_partition_witness :
    (⟨"General", "Intro text\n", [0]⟩ : DocSection).title = "General" ∧
    (extract_document_sections wParas).head? =
      some ⟨"General", "Intro text\n", [0]⟩ :=
  (section_partition_amended wParas).2.2.2 ⟨"General", "Intro text\n", [0]⟩
    (by decide) 0 (by decide) (by decide)

end ADGM
